import Mathlib

/-
Verification of the thanos-kit importer core: the time-partitioned
block-builder coordinator (`importer/blocks/multi.go`), the single-bucket
block writer (`importer/blocks/writer.go`), and the import pipeline
(`importer/import.go`).

The Go code is shallowly embedded: pure arithmetic (the bucketing formula)
is translated directly with Go's int64 semantics made explicit (truncating
division `Int.tdiv`, wrap-around via `i64wrap`); the stateful coordinator
becomes explicit state passing over a `MWriter` record; calls into external
collaborators (the prometheus TSDB head, the compactor, the filesystem) are
modelled by environment records whose fields give the outcome of each such
call; Go `error` results become `Option Err` / `Except Err`.
-/

namespace ThanosKit

/-- `2^63` as an integer literal (kept literal so kernel evaluation is cheap). -/
def two63 : Int := 9223372036854775808

/-- `2^64` as an integer literal. -/
def two64 : Int := 18446744073709551616

/-- Wrap an unbounded integer into the signed 64-bit range `[-2^63, 2^63)`,
exactly as Go int64 arithmetic does on overflow. -/
def i64wrap (x : Int) : Int := (x + two63) % two64 - two63

/-- Go `error` values as they are built by this code: plain messages
(`errors.New` / `errors.Errorf`), wrapped errors (`errors.Wrap`), and the
aggregate produced by `tsdb_errors.NewMulti().Err()`. -/
inductive Err where
  | msg (s : String)
  | wrap (s : String) (e : Err)
  | multi (es : List Err)

/-- `tsdb_errors` multi-error: `Add` ignores nil errors, `Err()` returns nil
iff no non-nil error was ever added, else a single aggregate carrying all of
them in order. -/
def multiResult (errs : List Err) : Option Err :=
  if errs.isEmpty then none else some (.multi errs)

/-- `rangeForTimestamp` from `multi.go`:
`func rangeForTimestamp(t int64, width int64) (maxt int64) { return (t/width)*width + width }`
with Go's truncating int64 division and int64 wrap-around made explicit. -/
def rangeForTimestamp (t width : Int) : Int :=
  i64wrap (i64wrap (Int.tdiv t width * width) + width)

/-- `index.Range` — the coordinator's map key. -/
structure Range where
  Start : Int
  End : Int
deriving DecidableEq, Repr

/-- The range key built in `MultiWriter.getOrCreate`:
`hash := index.Range{Start: maxt - w.sizeMillis, End: maxt}` (int64 subtraction). -/
def bucketOf (t width : Int) : Range :=
  ⟨i64wrap (rangeForTimestamp t width - width), rangeForTimestamp t width⟩

/-- Block identifiers (`ulid.ULID`), abstracted to an opaque token. -/
abbrev ULID := Nat

/-- Sample values are float64 in Go; no code modelled here ever inspects a
value, so values are carried as opaque tokens. -/
abbrev Val := Nat

/-- A label set (`labels.Labels`): name/value pairs. -/
abbrev Labels := List (String × String)

/-- Events recording which calls the coordinator and pipeline make, used to
state "X is invoked on every handle", "close is called exactly once", etc.
`create k ok` is the `k`-th `NewTSDBWriter` call and whether it succeeded;
`commitH r` / `rollbackH r` are `Commit`/`Rollback` on the active appender
registered under range `r`; `flushB i` / `closeB i` are `Flush`/`Close` on
the builder with creation index `i`; `commitW`/`flushW`/`closeW` are the calls
the import pipeline makes on the target writer itself. -/
inductive Ev where
  | create (k : Nat) (ok : Bool)
  | commitH (r : Range)
  | rollbackH (r : Range)
  | flushB (i : Nat)
  | closeB (i : Nat)
  | commitW
  | flushW
  | closeW
deriving DecidableEq, Repr

/-- Behaviour of a TSDB head appender (external collaborator): the outcome of
an `Append`/`AppendExemplar` at a given global call tick, and of
`Commit`/`Rollback`. `none` is a nil error. -/
structure AppBeh where
  appendRes : Nat → Option Err
  exemplarRes : Nat → Option Err
  commitRes : Option Err
  rollbackRes : Option Err

/-- Behaviour of a `TSDBWriter` as seen through the `blocks.Writer`
interface: its appender's behaviour and the outcomes of `Flush`/`Close`. -/
structure WBeh where
  app : AppBeh
  flushRes : Except Err (List ULID)
  closeRes : Option Err

/-- The environment: the outcome of the `k`-th `NewTSDBWriter` call made by
the coordinator (creation can fail, or yield a writer with some behaviour). -/
structure Env where
  newWriter : Nat → Except Err WBeh

/-- A created builder as stored in `MultiWriter.blocks`: its creation index
and its behaviour. -/
structure WriterH where
  id : Nat
  beh : WBeh

/-- A `storage.Appender` as stored in `MultiWriter.activeAppenders`: either
the synthesized `errAppender{err}` or a head appender of builder `bid`. -/
inductive Appender where
  | errA (e : Err)
  | headA (bid : Nat) (beh : AppBeh)

/-- `errAppender.Append` returns the stored error; a head appender's result
at tick `n` is given by its behaviour. -/
def Appender.appendResAt : Appender → Nat → Option Err
  | .errA e, _ => some e
  | .headA _ beh, n => beh.appendRes n

/-- `AppendExemplar` outcome, analogous to `Appender.appendResAt`. -/
def Appender.exemplarResAt : Appender → Nat → Option Err
  | .errA e, _ => some e
  | .headA _ beh, n => beh.exemplarRes n

/-- `Commit` outcome of a stored appender. -/
def Appender.commitResult : Appender → Option Err
  | .errA e => some e
  | .headA _ beh => beh.commitRes

/-- `Rollback` outcome of a stored appender. -/
def Appender.rollbackResult : Appender → Option Err
  | .errA e => some e
  | .headA _ beh => beh.rollbackRes

/-- The `MultiWriter` state: the two range-keyed maps (as insertion-ordered
association lists), plus the fixed bucket width. `attempts` counts
`NewTSDBWriter` calls and `clock` counts append-path delegations; both are
ghost instrumentation for the theorems, invisible to the modelled code. -/
structure MWriter where
  sizeMillis : Int
  blocks : List (Range × WriterH)
  activeAppenders : List (Range × Appender)
  attempts : Nat
  clock : Nat

/-- `NewMultiWriter`: both maps start empty. -/
def NewMultiWriter (sizeMillis : Int) : MWriter :=
  { sizeMillis := sizeMillis, blocks := [], activeAppenders := [],
    attempts := 0, clock := 0 }

/-- Association-list lookup, standing for Go map indexing. -/
def lookupR {α : Type} : List (Range × α) → Range → Option α
  | [], _ => none
  | (k, v) :: rest, r => if k = r then some v else lookupR rest r

/-- `MultiWriter.getOrCreate`: compute the range key from the timestamp; if
an appender is registered for it, return it unchanged; otherwise call
`NewTSDBWriter` — on failure return `errAppender{errors.Wrap(err, "new tsdb
writer")}` without touching either map, on success register the builder and
its appender together under the key and return the appender. -/
def MWriter.getOrCreate (env : Env) (w : MWriter) (t : Int) :
    Appender × MWriter × List Ev :=
  let hash := bucketOf t w.sizeMillis
  match lookupR w.activeAppenders hash with
  | some a => (a, w, [])
  | none =>
    match env.newWriter w.attempts with
    | .error e =>
        (.errA (.wrap "new tsdb writer" e),
         { w with attempts := w.attempts + 1 },
         [.create w.attempts false])
    | .ok beh =>
        (.headA w.attempts beh.app,
         { w with attempts := w.attempts + 1,
                  blocks := w.blocks ++ [(hash, ⟨w.attempts, beh⟩)],
                  activeAppenders :=
                    w.activeAppenders ++ [(hash, .headA w.attempts beh.app)] },
         [.create w.attempts true])

/-- `MultiWriter.Append`: route via `getOrCreate` on the sample's timestamp
and delegate. (The series ref and labels are threaded through unchanged by
the Go code and do not influence any modelled outcome, so they are elided.) -/
def MWriter.Append (env : Env) (w : MWriter) (t : Int) (_v : Val) :
    Option Err × MWriter × List Ev :=
  let (a, w', evs) := MWriter.getOrCreate env w t
  (a.appendResAt w'.clock, { w' with clock := w'.clock + 1 }, evs)

/-- `MultiWriter.AppendExemplar`: identical routing, keyed off the exemplar's
own timestamp. -/
def MWriter.AppendExemplar (env : Env) (w : MWriter) (ts : Int) :
    Option Err × MWriter × List Ev :=
  let (a, w', evs) := MWriter.getOrCreate env w ts
  (a.exemplarResAt w'.clock, { w' with clock := w'.clock + 1 }, evs)

/-- The loop body of `MultiWriter.Commit`: `merr.Add(a.Commit())` over all
active appenders, collecting the non-nil errors in order. -/
def commitLoop : List (Range × Appender) → List Err × List Ev
  | [] => ([], [])
  | (r, a) :: rest =>
    let (errs, evs) := commitLoop rest
    ((a.commitResult).toList ++ errs, .commitH r :: evs)

/-- `MultiWriter.Commit`: aggregate all appender commit errors. -/
def MWriter.Commit (w : MWriter) : Option Err × List Ev :=
  let (errs, evs) := commitLoop w.activeAppenders
  (multiResult errs, evs)

/-- The loop body of `MultiWriter.Rollback`. -/
def rollbackLoop : List (Range × Appender) → List Err × List Ev
  | [] => ([], [])
  | (r, a) :: rest =>
    let (errs, evs) := rollbackLoop rest
    ((a.rollbackResult).toList ++ errs, .rollbackH r :: evs)

/-- `MultiWriter.Rollback`: same aggregation discipline as `Commit`. -/
def MWriter.Rollback (w : MWriter) : Option Err × List Ev :=
  let (errs, evs) := rollbackLoop w.activeAppenders
  (multiResult errs, evs)

/-- The loop body of `MultiWriter.Flush`: flush each builder in turn,
concatenating identifiers, returning the first error immediately (Go:
`return nil, err`) without visiting the remaining builders. -/
def flushLoop : List (Range × WriterH) → Except Err (List ULID) × List Ev
  | [] => (.ok [], [])
  | (_, b) :: rest =>
    match b.beh.flushRes with
    | .error e => (.error e, [.flushB b.id])
    | .ok ids =>
      match flushLoop rest with
      | (.ok ids', evs) => (.ok (ids ++ ids'), .flushB b.id :: evs)
      | (.error e, evs) => (.error e, .flushB b.id :: evs)

/-- `MultiWriter.Flush`: fail-fast over the created builders. -/
def MWriter.Flush (w : MWriter) : Except Err (List ULID) × List Ev :=
  flushLoop w.blocks

/-- The loop body of `MultiWriter.Close`: `merr.Add(b.Close())` over all
created builders. -/
def closeLoop : List (Range × WriterH) → List Err × List Ev
  | [] => ([], [])
  | (_, b) :: rest =>
    let (errs, evs) := closeLoop rest
    ((b.beh.closeRes).toList ++ errs, .closeB b.id :: evs)

/-- `MultiWriter.Close`: aggregate all builder close errors. -/
def MWriter.Close (w : MWriter) : Option Err × List Ev :=
  let (errs, evs) := closeLoop w.blocks
  (multiResult errs, evs)

/-- A sample as appended into a TSDB head. -/
structure Sample where
  lbls : Labels
  ts : Int
  v : Val
deriving DecidableEq, Repr

/-- The TSDB head (external collaborator), modelled by the samples that were
appended to it; `NumSeries` counts the distinct label sets among them. -/
structure Head where
  appended : List Sample
deriving DecidableEq, Repr

/-- `head.NumSeries()`: number of distinct series in the head. -/
def Head.numSeries (h : Head) : Nat := ((h.appended.map (·.lbls)).dedup).length

/-- The single-bucket `TSDBWriter` of `writer.go`, reduced to the state its
`Flush` inspects. -/
structure TSDBWriter where
  head : Head
deriving DecidableEq, Repr

/-- Outcomes of the external calls `TSDBWriter.Flush` makes: compactor
construction, `compactor.Write` (yielding the new block's ULID), metadata
read and metadata write. -/
structure FlushEnv where
  newCompactor : Option Err
  compactorWrite : Except Err ULID
  metaRead : Option Err
  metaWrite : Option Err

/-- `TSDBWriter.Flush` from `writer.go`: error out on an empty head
(`"no series appended; aborting."`); otherwise build the compactor, write
the block, read and amend its metadata, and return the singleton id list.
Each failing step wraps its error exactly as the Go code does. -/
def TSDBWriter.Flush (w : TSDBWriter) (env : FlushEnv) : Except Err (List ULID) :=
  if w.head.numSeries = 0 then .error (.msg "no series appended; aborting.")
  else
    match env.newCompactor with
    | some e => .error (.wrap "create leveled compactor" e)
    | none =>
      match env.compactorWrite with
      | .error e => .error (.wrap "compactor write" e)
      | .ok id =>
        match env.metaRead with
        | some e => .error (.wrap "metadata read" e)
        | none =>
          match env.metaWrite with
          | some e => .error (.wrap "metadata write" e)
          | none => .ok [id]

/-- A parsed entry (`textparse.Entry`): only series entries matter to the
pipeline; everything else is skipped. A series entry carries a label set, an
optional timestamp and a value. -/
inductive Entry where
  | series (lbls : Labels) (ts : Option Int) (v : Val)
  | other
deriving DecidableEq, Repr

/-- One `p.Next()` outcome: an entry, or a parse error. The end of the list
is `io.EOF`. -/
inductive PItem where
  | entry (e : Entry)
  | failed (e : Err)

/-- Rendering of a label set for the missing-timestamp message (the external
`labels.String()`, abstracted). -/
def labelsString (l : Labels) : String :=
  String.intercalate ", " (l.map (fun p => p.1 ++ "=" ++ p.2))

/-- The missing-timestamp error:
`errors.Errorf("expected timestamp for series %v, got none", l.String())`. -/
def missingTs (l : Labels) : Err :=
  .msg ("expected timestamp for series " ++ labelsString l ++ ", got none")

/-- The read loop of `Import`: pull entries until EOF or error, skip
non-series entries, abort on a parse error (wrapped `"parse"`), on a series
entry without timestamp (`missingTs`), or on an append error (wrapped
`"add sample"`). Returns the loop's error (none at EOF), the coordinator
state, and the trace of events. -/
def importLoop (env : Env) : List PItem → MWriter → Option Err × MWriter × List Ev
  | [], w => (none, w, [])
  | .failed e :: _, w => (some (.wrap "parse" e), w, [])
  | .entry .other :: rest, w => importLoop env rest w
  | .entry (.series l none _) :: _, w => (some (missingTs l), w, [])
  | .entry (.series _ (some t) v) :: rest, w =>
    match MWriter.Append env w t v with
    | (some e, w', evs) => (some (.wrap "add sample" e), w', evs)
    | (none, w', evs) =>
      let (r, w'', evs') := importLoop env rest w'
      (r, w'', evs ++ evs')

/-- The body of `Import` before the deferred close: the read loop, then
`app.Commit()` (wrapped `"commit"` on failure), then `w.Flush()` (wrapped
`"flush"` on failure). Returns the named results `(ids, err)` as they stand
when the deferred function runs, plus the state and the event trace. -/
def importCore (env : Env) (input : List PItem) (w0 : MWriter) :
    (List ULID × Option Err) × MWriter × List Ev :=
  match importLoop env input w0 with
  | (some e, w, evs) => (([], some e), w, evs)
  | (none, w, evs) =>
    match MWriter.Commit w with
    | (some e, cevs) => (([], some (.wrap "commit" e)), w, evs ++ Ev.commitW :: cevs)
    | (none, cevs) =>
      match MWriter.Flush w with
      | (.error e, fevs) =>
          (([], some (.wrap "flush" e)), w,
           evs ++ Ev.commitW :: cevs ++ Ev.flushW :: fevs)
      | (.ok ids, fevs) =>
          ((ids, none), w,
           evs ++ Ev.commitW :: cevs ++ Ev.flushW :: fevs)

/-- The result of an `Import` run. -/
structure ImportOut where
  ids : List ULID
  err : Option Err
  trace : List Ev
  final : MWriter

/-- `Import` from `import.go`: run the body, then (deferred, on every exit
path) `merr.Add(err); merr.Add(w.Close()); err = merr.Err()`. Note the
deferred function replaces only `err`; the named result `ids` keeps whatever
value the body gave it. -/
def Import (env : Env) (input : List PItem) (w0 : MWriter) : ImportOut :=
  match importCore env input w0 with
  | ((ids, e), w, evs) =>
    let (clErr, clEvs) := MWriter.Close w
    { ids := ids,
      err := multiResult (e.toList ++ clErr.toList),
      trace := evs ++ Ev.closeW :: clEvs,
      final := w }

/-- The creation indices of the builders held in `blocks`. -/
def blockIds (w : MWriter) : List Nat := w.blocks.map (fun p => p.2.id)

/-- Creation indices of successful `create` events in a trace. -/
def createdIds (evs : List Ev) : List Nat :=
  evs.filterMap (fun ev => match ev with
    | .create k true => some k
    | _ => none)

/-- Builder indices of `closeB` events in a trace. -/
def closedIds (evs : List Ev) : List Nat :=
  evs.filterMap (fun ev => match ev with
    | .closeB i => some i
    | _ => none)

/-- Whether an event is the pipeline's close of the target writer. -/
def isCloseW : Ev → Bool
  | .closeW => true
  | _ => false

/-- How many times the pipeline closed the target writer. -/
def countCloseW (evs : List Ev) : Nat := (evs.filter isCloseW).length

/-- The list of component errors of an aggregated optional error. -/
def errComponents : Option Err → List Err
  | none => []
  | some (.multi l) => l
  | some e => [e]

/-- Fixture: a head-appender behaviour that always succeeds. -/
def okApp : AppBeh := ⟨fun _ => none, fun _ => none, none, none⟩

/-- Fixture: a builder that appends and commits fine, flushes to block `7`,
and fails on close. -/
def behCloseFail : WBeh := ⟨okApp, .ok [7], some (.msg "close fail")⟩

/-- Fixture: an environment in which every builder creation yields
`behCloseFail`. -/
def envCloseFail : Env := ⟨fun _ => .ok behCloseFail⟩

/-- Fixture: an environment in which every builder creation fails. -/
def envCreateFail : Env := ⟨fun _ => .error (.msg "boom")⟩

/-- Fixture: a builder that behaves well in every respect, flushing to block
`7`. -/
def behOk : WBeh := ⟨okApp, .ok [7], none⟩

/-- Fixture: an environment in which every builder creation yields `behOk`. -/
def envOk : Env := ⟨fun _ => .ok behOk⟩

/-- Fixture: a single valid series entry at timestamp 3. -/
def inputOne : List PItem := [.entry (.series [("__name__", "x")] (some 3) 0)]

/-- The identifiers a builder's flush yields when it succeeds. -/
def flushOkIds (b : WriterH) : List ULID :=
  match b.beh.flushRes with
  | .ok ids => ids
  | .error _ => []

/-- Fixture: builder `i` flushing successfully to `ids`. -/
def wbFlushOk (i : Nat) (ids : List ULID) : WriterH := ⟨i, ⟨okApp, .ok ids, none⟩⟩

/-- Fixture: builder `i` failing to flush. -/
def wbFlushBad (i : Nat) : WriterH := ⟨i, ⟨okApp, .error (.msg "disk full"), none⟩⟩

/-- Fixture: a coordinator holding three builders of which the second fails
to flush. -/
def w3 : MWriter :=
  { sizeMillis := 10,
    blocks := [(⟨0, 10⟩, wbFlushOk 0 [101]), (⟨10, 20⟩, wbFlushBad 1),
               (⟨20, 30⟩, wbFlushOk 2 [103])],
    activeAppenders := [(⟨0, 10⟩, .headA 0 okApp), (⟨10, 20⟩, .headA 1 okApp),
                        (⟨20, 30⟩, .headA 2 okApp)],
    attempts := 3, clock := 3 }

/-- Fixture: a flush environment in which every external call succeeds and
the compactor writes block `42`. -/
def flushEnvOk : FlushEnv := ⟨none, .ok 42, none, none⟩

/-- The coordinator's operations, as exercised by its callers. -/
inductive MWOp where
  | append (t : Int) (v : Val)
  | appendEx (ts : Int)
  | commit
  | rollback
  | flush
  | close

/-- One coordinator step: the append-path operations may update the maps via
`getOrCreate`; `Commit`, `Rollback`, `Flush` and `Close` only read the maps
(the Go methods never assign to `w.blocks` / `w.activeAppenders`), so they
leave the state unchanged. -/
def mwStep (env : Env) (w : MWriter) : MWOp → MWriter
  | .append t v => (MWriter.Append env w t v).2.1
  | .appendEx ts => (MWriter.AppendExemplar env w ts).2.1
  | .commit => w
  | .rollback => w
  | .flush => w
  | .close => w

/-- Running a sequence of coordinator operations from a state. -/
def mwRun (env : Env) (ops : List MWOp) (w : MWriter) : MWriter :=
  ops.foldl (mwStep env) w

/-- The two maps of the coordinator have identical key sequences. -/
def keysAligned (w : MWriter) : Prop :=
  w.blocks.map (fun p => p.1) = w.activeAppenders.map (fun p => p.1)

/-- Bookkeeping invariant tying the ghost creation counter to the builder
map: builder ids are distinct and below the number of creation attempts. -/
def IdsOK (w : MWriter) : Prop :=
  (blockIds w).Nodup ∧ ∀ i ∈ blockIds w, i < w.attempts

/-- The close errors of all created builders, in map order. -/
def closeErrsOf (w : MWriter) : List Err :=
  w.blocks.filterMap (fun p => p.2.beh.closeRes)

theorem i64wrap_eq_self {x : Int} (h1 : -two63 ≤ x) (h2 : x < two63) :
    i64wrap x = x := by
  unfold i64wrap
  unfold two63 at h1 h2
  unfold two63 two64
  rw [Int.emod_eq_of_lt (by omega) (by omega)]
  omega

theorem rangeForTimestamp_eval {t w : Int} (ht : 0 ≤ t) (htu : t < two63)
    (hw : 0 < w) (hov : Int.tdiv t w * w + w < two63) :
    rangeForTimestamp t w = Int.tdiv t w * w + w ∧
    i64wrap (rangeForTimestamp t w - w) = Int.tdiv t w * w := by
  have hq0 : 0 ≤ Int.tdiv t w := Int.tdiv_nonneg ht hw.le
  have hqw0 : 0 ≤ Int.tdiv t w * w := mul_nonneg hq0 hw.le
  have hqwt : Int.tdiv t w * w ≤ t := by
    rw [Int.tdiv_eq_ediv ht hw.le]
    exact Int.ediv_mul_le t (ne_of_gt hw)
  have hneg : (0 : Int) < two63 := by unfold two63; omega
  have h1 : i64wrap (Int.tdiv t w * w) = Int.tdiv t w * w :=
    i64wrap_eq_self (by omega) (lt_of_le_of_lt hqwt htu)
  have h2 : i64wrap (Int.tdiv t w * w + w) = Int.tdiv t w * w + w :=
    i64wrap_eq_self (by omega) hov
  have hm : rangeForTimestamp t w = Int.tdiv t w * w + w := by
    unfold rangeForTimestamp
    rw [h1, h2]
  refine ⟨hm, ?_⟩
  rw [hm]
  have : Int.tdiv t w * w + w - w = Int.tdiv t w * w := by ring
  rw [this, h1]

/-- `getOrCreate` takes exactly one of three branches: hit, creation
failure (maps untouched, `errAppender` returned), or creation success
(builder and appender registered together under the range key). -/
theorem getOrCreate_cases (env : Env) (w : MWriter) (t : Int) :
    (∃ a, lookupR w.activeAppenders (bucketOf t w.sizeMillis) = some a ∧
       MWriter.getOrCreate env w t = (a, w, [])) ∨
    (∃ e, lookupR w.activeAppenders (bucketOf t w.sizeMillis) = none ∧
       env.newWriter w.attempts = .error e ∧
       MWriter.getOrCreate env w t =
         (.errA (.wrap "new tsdb writer" e),
          { w with attempts := w.attempts + 1 }, [.create w.attempts false])) ∨
    (∃ beh, lookupR w.activeAppenders (bucketOf t w.sizeMillis) = none ∧
       env.newWriter w.attempts = .ok beh ∧
       MWriter.getOrCreate env w t =
         (.headA w.attempts beh.app,
          { w with attempts := w.attempts + 1,
                   blocks := w.blocks ++
                     [(bucketOf t w.sizeMillis, ⟨w.attempts, beh⟩)],
                   activeAppenders := w.activeAppenders ++
                     [(bucketOf t w.sizeMillis, .headA w.attempts beh.app)] },
          [.create w.attempts true])) := by
  rcases hl : lookupR w.activeAppenders (bucketOf t w.sizeMillis) with _ | a
  · rcases he : env.newWriter w.attempts with e | beh
    · exact .inr (.inl ⟨e, rfl, rfl, by simp [MWriter.getOrCreate, hl, he]⟩)
    · exact .inr (.inr ⟨beh, rfl, rfl, by simp [MWriter.getOrCreate, hl, he]⟩)
  · exact .inl ⟨a, rfl, by simp [MWriter.getOrCreate, hl]⟩

/-- C1 (amended): for every non-negative in-range timestamp `t` and fixed
width `0 < w` whose bucket end does not overflow int64, the range computed by
`rangeForTimestamp` / `getOrCreate` is a half-open interval `[start, end)`
with `start ≤ t < end` and `end - start = w`, and two such timestamps get the
same range iff `floor(t/w) = floor(t'/w)`. (For negative timestamps Go's
truncating division puts `t` outside its computed range — see the
counterexample.) -/
theorem bucketing_spec (t w : Int) (ht : 0 ≤ t) (htu : t < two63)
    (hw : 0 < w) (hov : Int.tdiv t w * w + w < two63) :
    (bucketOf t w).Start ≤ t ∧ t < (bucketOf t w).End ∧
    (bucketOf t w).End - (bucketOf t w).Start = w ∧
    (∀ t', 0 ≤ t' → t' < two63 → Int.tdiv t' w * w + w < two63 →
      (bucketOf t' w = bucketOf t w ↔ t' / w = t / w)) := by
  have hb : ∀ s, 0 ≤ s → s < two63 → Int.tdiv s w * w + w < two63 →
      bucketOf s w = ⟨Int.tdiv s w * w, Int.tdiv s w * w + w⟩ := by
    intro s hs hsu hsov
    obtain ⟨hm, hst⟩ := rangeForTimestamp_eval hs hsu hw hsov
    unfold bucketOf
    rw [hst, hm]
  have hbt := hb t ht htu hov
  have hqwt : Int.tdiv t w * w ≤ t := by
    rw [Int.tdiv_eq_ediv ht hw.le]
    exact Int.ediv_mul_le t (ne_of_gt hw)
  have hlt : t < Int.tdiv t w * w + w := by
    rw [Int.tdiv_eq_ediv ht hw.le]
    calc t = w * (t / w) + t % w := (Int.ediv_add_emod t w).symm
      _ < w * (t / w) + w := by
            have := Int.emod_lt_of_pos t hw
            omega
      _ = t / w * w + w := by ring
  refine ⟨?_, ?_, ?_, ?_⟩
  · rw [hbt]; exact hqwt
  · rw [hbt]; exact hlt
  · rw [hbt]; ring
  · intro t' ht' htu' hov'
    rw [hb t' ht' htu' hov', hbt, Range.mk.injEq]
    constructor
    · rintro ⟨h1, -⟩
      have h2 : Int.tdiv t' w = Int.tdiv t w := mul_right_cancel₀ (ne_of_gt hw) h1
      rw [← Int.tdiv_eq_ediv ht' hw.le, ← Int.tdiv_eq_ediv ht hw.le, h2]
    · intro h
      have h2 : Int.tdiv t' w = Int.tdiv t w := by
        rw [Int.tdiv_eq_ediv ht' hw.le, Int.tdiv_eq_ediv ht hw.le, h]
      rw [h2]
      exact ⟨rfl, rfl⟩

/-- Witness for `bucketing_spec` at `t = 5`, `w = 3`. -/
theorem bucketing_spec_witness :
    (0 ≤ (5 : Int)) ∧ ((5 : Int) < two63) ∧ (0 < (3 : Int)) ∧
    (Int.tdiv 5 3 * 3 + 3 < two63) ∧
    ((bucketOf 5 3).Start ≤ 5 ∧ 5 < (bucketOf 5 3).End ∧
     (bucketOf 5 3).End - (bucketOf 5 3).Start = 3 ∧
     (∀ t', 0 ≤ t' → t' < two63 → Int.tdiv t' 3 * 3 + 3 < two63 →
       (bucketOf t' 3 = bucketOf 5 3 ↔ t' / 3 = 5 / 3))) :=
  ⟨by decide, by decide, by decide, by decide,
   bucketing_spec 5 3 (by decide) (by decide) (by decide) (by decide)⟩

/-- C1 counterexample: at the negative timestamp `t = -1` with width `w = 10`
the code computes the range `[0, 10)`, which does not contain `-1`; moreover
`-1` and `1` are assigned the same range even though `floor(-1/10) = -1 ≠ 0 =
floor(1/10)`. -/
theorem bucketing_neg_counterexample :
    (bucketOf (-1) 10).Start = 0 ∧ (bucketOf (-1) 10).End = 10 ∧
    ¬ ((bucketOf (-1) 10).Start ≤ -1) ∧
    bucketOf (-1) 10 = bucketOf 1 10 ∧
    ¬ ((-1 : Int) / 10 = 1 / 10) := by decide

/-- C2 (amended): when builder creation fails inside the append path, the
coordinator synthesizes `errAppender`, whose every operation — including
`Append` itself — returns the same underlying (wrapped) creation error. The
triggering append call therefore returns the creation error directly; and
because the synthesized handle is not retained in either map, the
subsequent commit and flush behave exactly as if that append had never
happened (they do not surface the creation failure). -/
theorem errAppender_surfaces_at_append (e : Err) (env : Env) (w : MWriter)
    (t : Int) (v : Val)
    (hl : lookupR w.activeAppenders (bucketOf t w.sizeMillis) = none)
    (he : env.newWriter w.attempts = .error e) :
    (∀ n, Appender.appendResAt (.errA e) n = some e) ∧
    (∀ n, Appender.exemplarResAt (.errA e) n = some e) ∧
    Appender.commitResult (.errA e) = some e ∧
    Appender.rollbackResult (.errA e) = some e ∧
    (MWriter.Append env w t v).1 = some (.wrap "new tsdb writer" e) ∧
    (MWriter.Append env w t v).2.1.blocks = w.blocks ∧
    (MWriter.Append env w t v).2.1.activeAppenders = w.activeAppenders ∧
    MWriter.Commit (MWriter.Append env w t v).2.1 = MWriter.Commit w ∧
    MWriter.Flush (MWriter.Append env w t v).2.1 = MWriter.Flush w := by
  have hgc : MWriter.getOrCreate env w t =
      (.errA (.wrap "new tsdb writer" e),
       { w with attempts := w.attempts + 1 }, [.create w.attempts false]) := by
    simp [MWriter.getOrCreate, hl, he]
  refine ⟨fun _ => rfl, fun _ => rfl, rfl, rfl, ?_, ?_, ?_, ?_, ?_⟩ <;>
    simp [MWriter.Append, hgc, Appender.appendResAt, MWriter.Commit, MWriter.Flush]

/-- Witness for `errAppender_surfaces_at_append` on a fresh coordinator with
an always-failing creation environment. -/
theorem errAppender_surfaces_at_append_witness :
    lookupR (NewMultiWriter 10).activeAppenders
        (bucketOf 5 (NewMultiWriter 10).sizeMillis) = none ∧
    envCreateFail.newWriter (NewMultiWriter 10).attempts =
      .error (.msg "boom") ∧
    ((∀ n, Appender.appendResAt (.errA (.msg "boom")) n = some (.msg "boom")) ∧
     (∀ n, Appender.exemplarResAt (.errA (.msg "boom")) n = some (.msg "boom")) ∧
     Appender.commitResult (.errA (.msg "boom")) = some (.msg "boom") ∧
     Appender.rollbackResult (.errA (.msg "boom")) = some (.msg "boom") ∧
     (MWriter.Append envCreateFail (NewMultiWriter 10) 5 0).1 =
       some (.wrap "new tsdb writer" (.msg "boom")) ∧
     (MWriter.Append envCreateFail (NewMultiWriter 10) 5 0).2.1.blocks =
       (NewMultiWriter 10).blocks ∧
     (MWriter.Append envCreateFail (NewMultiWriter 10) 5 0).2.1.activeAppenders =
       (NewMultiWriter 10).activeAppenders ∧
     MWriter.Commit (MWriter.Append envCreateFail (NewMultiWriter 10) 5 0).2.1 =
       MWriter.Commit (NewMultiWriter 10) ∧
     MWriter.Flush (MWriter.Append envCreateFail (NewMultiWriter 10) 5 0).2.1 =
       MWriter.Flush (NewMultiWriter 10)) :=
  ⟨rfl, rfl,
   errAppender_surfaces_at_append (.msg "boom") envCreateFail
     (NewMultiWriter 10) 5 0 rfl rfl⟩

/-- C2 counterexample: with builder creation failing, the append call itself
returns the (wrapped) creation error — it is not `nil` — while the
subsequent commit returns `nil` and flush succeeds with no blocks, so the
failure is NOT first surfaced at commit/flush time. -/
theorem createFail_counterexample :
    (MWriter.Append envCreateFail (NewMultiWriter 10) 5 0).1 =
      some (.wrap "new tsdb writer" (.msg "boom")) ∧
    (MWriter.Append envCreateFail (NewMultiWriter 10) 5 0).1 ≠ none ∧
    (MWriter.Commit
      (MWriter.Append envCreateFail (NewMultiWriter 10) 5 0).2.1).1 = none ∧
    (MWriter.Flush
      (MWriter.Append envCreateFail (NewMultiWriter 10) 5 0).2.1).1 = .ok [] :=
  ⟨rfl, fun h => Option.noConfusion h, rfl, rfl⟩

/-- `importCore` takes exactly one of four branches: loop abort, commit
error, flush error, or success. -/
theorem importCore_cases (env : Env) (input : List PItem) (w0 : MWriter) :
    (∃ e w evs, importLoop env input w0 = (some e, w, evs) ∧
       importCore env input w0 = (([], some e), w, evs)) ∨
    (∃ w evs ce cevs, importLoop env input w0 = (none, w, evs) ∧
       MWriter.Commit w = (some ce, cevs) ∧
       importCore env input w0 =
         (([], some (.wrap "commit" ce)), w, evs ++ Ev.commitW :: cevs)) ∨
    (∃ w evs cevs fe fevs, importLoop env input w0 = (none, w, evs) ∧
       MWriter.Commit w = (none, cevs) ∧ MWriter.Flush w = (.error fe, fevs) ∧
       importCore env input w0 =
         (([], some (.wrap "flush" fe)), w,
          evs ++ Ev.commitW :: cevs ++ Ev.flushW :: fevs)) ∨
    (∃ w evs cevs ids fevs, importLoop env input w0 = (none, w, evs) ∧
       MWriter.Commit w = (none, cevs) ∧ MWriter.Flush w = (.ok ids, fevs) ∧
       importCore env input w0 =
         ((ids, none), w, evs ++ Ev.commitW :: cevs ++ Ev.flushW :: fevs)) := by
  rcases hl : importLoop env input w0 with ⟨r, w, evs⟩
  rcases r with _ | e
  · rcases hc : MWriter.Commit w with ⟨cerr, cevs⟩
    rcases cerr with _ | ce
    · rcases hf : MWriter.Flush w with ⟨fres, fevs⟩
      rcases fres with fe | ids
      · exact .inr (.inr (.inl ⟨w, evs, cevs, fe, fevs, rfl, hc, hf,
          by simp [importCore, hl, hc, hf]⟩))
      · exact .inr (.inr (.inr ⟨w, evs, cevs, ids, fevs, rfl, hc, hf,
          by simp [importCore, hl, hc, hf]⟩))
    · exact .inr (.inl ⟨w, evs, ce, cevs, rfl, hc,
        by simp [importCore, hl, hc]⟩)
  · exact .inl ⟨e, w, evs, rfl, by simp [importCore, hl]⟩

/-- C3 (amended): if an import run returns a non-empty identifier set, then
either its error is nil, or everything up to and including flush succeeded
and the error is exactly the aggregate of the close-time failure — the only
way `Import` pairs a non-empty identifier set with a non-nil error. -/
theorem import_ids_vs_error (env : Env) (input : List PItem) (w0 : MWriter)
    (h : (Import env input w0).ids ≠ []) :
    (Import env input w0).err = none ∨
    (∃ c, (MWriter.Close (Import env input w0).final).1 = some c ∧
       (Import env input w0).err = some (.multi [c])) := by
  rcases importCore_cases env input w0 with
    ⟨e, w, evs, hl, hc⟩ | ⟨w, evs, ce, cevs, hl, hcm, hc⟩ |
    ⟨w, evs, cevs, fe, fevs, hl, hcm, hf, hc⟩ |
    ⟨w, evs, cevs, ids, fevs, hl, hcm, hf, hc⟩
  · simp [Import, hc] at h
  · simp [Import, hc] at h
  · simp [Import, hc] at h
  · rcases hclp : MWriter.Close w with ⟨clErr, clEvs⟩
    rcases clErr with _ | c
    · left
      simp [Import, hc, hclp, multiResult]
    · right
      refine ⟨c, ?_, ?_⟩
      · simp [Import, hc, hclp]
      · simp [Import, hc, hclp, multiResult]

/-- Witness for `import_ids_vs_error` on a run that flushes block `7` and
then fails on close. -/
theorem import_ids_vs_error_witness :
    (Import envCloseFail inputOne (NewMultiWriter 10)).ids ≠ [] ∧
    ((Import envCloseFail inputOne (NewMultiWriter 10)).err = none ∨
     (∃ c, (MWriter.Close
              (Import envCloseFail inputOne (NewMultiWriter 10)).final).1 =
             some c ∧
        (Import envCloseFail inputOne (NewMultiWriter 10)).err =
          some (.multi [c]))) :=
  ⟨fun h => List.noConfusion h,
   import_ids_vs_error envCloseFail inputOne (NewMultiWriter 10)
     (fun h => List.noConfusion h)⟩

/-- C3 counterexample: a run whose appends, commit and flush all succeed but
whose close fails returns the non-empty identifier set `[7]` together with a
non-nil (combined) error — contradicting "Import never returns a non-empty
identifier set together with a non-nil error". -/
theorem import_close_error_counterexample :
    (Import envCloseFail inputOne (NewMultiWriter 10)).ids = [7] ∧
    (Import envCloseFail inputOne (NewMultiWriter 10)).ids ≠ [] ∧
    (Import envCloseFail inputOne (NewMultiWriter 10)).err =
      some (.multi [.multi [.msg "close fail"]]) ∧
    (Import envCloseFail inputOne (NewMultiWriter 10)).err ≠ none :=
  ⟨rfl, fun h => List.noConfusion h, rfl, fun h => Option.noConfusion h⟩

theorem multiResult_eq_none_iff (l : List Err) :
    multiResult l = none ↔ l = [] := by
  unfold multiResult
  split <;> simp_all

theorem commitLoop_spec (l : List (Range × Appender)) :
    commitLoop l = (l.filterMap (fun p => p.2.commitResult),
                    l.map (fun p => Ev.commitH p.1)) := by
  induction l with
  | nil => rfl
  | cons p rest ih =>
    rcases p with ⟨r, a⟩
    cases h : a.commitResult <;>
      simp [commitLoop, ih, List.filterMap_cons, h]

/-- C4: `MultiWriter.Commit` invokes commit on every currently active
handle, unconditionally and in order (the trace is exactly one `commitH` per
map entry, whatever the results are); it aggregates precisely the non-nil
commit errors into one combined error; and it returns nil iff every handle's
commit succeeded. -/
theorem commit_aggregates (w : MWriter) :
    (MWriter.Commit w).2 = w.activeAppenders.map (fun p => Ev.commitH p.1) ∧
    (MWriter.Commit w).1 =
      multiResult (w.activeAppenders.filterMap (fun p => p.2.commitResult)) ∧
    ((MWriter.Commit w).1 = none ↔
      ∀ p ∈ w.activeAppenders, p.2.commitResult = none) := by
  have h := commitLoop_spec w.activeAppenders
  refine ⟨by simp [MWriter.Commit, h], by simp [MWriter.Commit, h], ?_⟩
  simp only [MWriter.Commit, h]
  rw [multiResult_eq_none_iff, List.filterMap_eq_nil_iff]

theorem flushLoop_all_ok (l : List (Range × WriterH))
    (h : ∀ p ∈ l, ∃ ids, p.2.beh.flushRes = .ok ids) :
    flushLoop l = (.ok ((l.map (fun p => flushOkIds p.2)).flatten),
                   l.map (fun p => Ev.flushB p.2.id)) := by
  induction l with
  | nil => rfl
  | cons q rest ih =>
    rcases q with ⟨r, b⟩
    obtain ⟨ids, hq⟩ := h (r, b) (List.mem_cons_self _ _)
    have hq' : b.beh.flushRes = .ok ids := hq
    have ih' := ih (fun p hp => h p (List.mem_cons_of_mem _ hp))
    simp [flushLoop, hq', ih', flushOkIds]

theorem flushLoop_first_error (pre : List (Range × WriterH))
    (p : Range × WriterH) (post : List (Range × WriterH)) (e : Err)
    (hpre : ∀ q ∈ pre, ∃ ids, q.2.beh.flushRes = .ok ids)
    (hp : p.2.beh.flushRes = .error e) :
    flushLoop (pre ++ p :: post) =
      (.error e, pre.map (fun q => Ev.flushB q.2.id) ++ [.flushB p.2.id]) := by
  induction pre with
  | nil =>
    rcases p with ⟨r, b⟩
    have hp' : b.beh.flushRes = .error e := hp
    simp [flushLoop, hp']
  | cons q rest ih =>
    rcases q with ⟨r, b⟩
    obtain ⟨ids, hq⟩ := hpre (r, b) (List.mem_cons_self _ _)
    have hq' : b.beh.flushRes = .ok ids := hq
    have ih' := ih (fun x hx => hpre x (List.mem_cons_of_mem _ hx))
    simp [flushLoop, hq', ih']

/-- C5: `MultiWriter.Flush` is fail-fast. If every created builder's flush
succeeds it returns the concatenation of all their identifiers, having
visited each builder once in order; if some builder fails and all builders
before it succeed, it returns that builder's error unchanged with no
identifiers, having visited exactly the builders up to and including the
failing one — the remaining builders are not flushed and no aggregation
happens. -/
theorem flush_failfast (w : MWriter) :
    ((∀ p ∈ w.blocks, ∃ ids, p.2.beh.flushRes = .ok ids) →
      MWriter.Flush w =
        (.ok ((w.blocks.map (fun p => flushOkIds p.2)).flatten),
         w.blocks.map (fun p => Ev.flushB p.2.id))) ∧
    (∀ pre p post e, w.blocks = pre ++ p :: post →
      (∀ q ∈ pre, ∃ ids, q.2.beh.flushRes = .ok ids) →
      p.2.beh.flushRes = .error e →
      MWriter.Flush w =
        (.error e, pre.map (fun q => Ev.flushB q.2.id) ++ [.flushB p.2.id])) := by
  constructor
  · intro h
    exact flushLoop_all_ok w.blocks h
  · intro pre p post e hb hpre hp
    show flushLoop w.blocks = _
    rw [hb]
    exact flushLoop_first_error pre p post e hpre hp

/-- Witness for `flush_failfast`: on `w3` the flush returns builder 1's
error, no identifiers, and visits only builders 0 and 1. -/
theorem flush_failfast_witness :
    MWriter.Flush w3 = (.error (.msg "disk full"), [Ev.flushB 0, Ev.flushB 1]) :=
  (flush_failfast w3).2 [(⟨0, 10⟩, wbFlushOk 0 [101])] (⟨10, 20⟩, wbFlushBad 1)
    [(⟨20, 30⟩, wbFlushOk 2 [103])] (.msg "disk full") rfl
    (by
      intro q hq
      simp only [List.mem_singleton] at hq
      subst hq
      exact ⟨[101], rfl⟩)
    rfl

/-- C8: flushing a single-bucket builder to which zero samples were ever
appended fails with the explicit empty-builder error (`"no series appended;
aborting."`) and returns no block identifier, whatever the external calls
would have done; a builder holding at least one sample never takes this
error branch (its flush either succeeds or fails with one of the wrapped
external errors, never the bare empty-builder message). -/
theorem tsdb_flush_empty (w : TSDBWriter) (env : FlushEnv) :
    (w.head.appended = [] →
      w.Flush env = .error (.msg "no series appended; aborting.")) ∧
    (w.head.appended ≠ [] →
      w.Flush env ≠ .error (.msg "no series appended; aborting.")) := by
  constructor
  · intro h
    have hz : w.head.numSeries = 0 := by simp [Head.numSeries, h]
    simp [TSDBWriter.Flush, hz]
  · intro h
    have hn : ¬ w.head.numSeries = 0 := by
      simp only [Head.numSeries, List.length_eq_zero, List.dedup_eq_nil,
        List.map_eq_nil_iff]
      exact h
    simp only [TSDBWriter.Flush, if_neg hn]
    rcases env.newCompactor with _ | e
    · rcases env.compactorWrite with e | id
      · simp
      · rcases env.metaRead with _ | e
        · rcases env.metaWrite with _ | e
          · simp
          · simp
        · simp
    · simp

/-- Witness for `tsdb_flush_empty`: the empty builder fails with the
empty-builder error; a builder holding one sample does not. -/
theorem tsdb_flush_empty_witness :
    (TSDBWriter.Flush ⟨⟨[]⟩⟩ flushEnvOk =
      .error (.msg "no series appended; aborting.")) ∧
    (TSDBWriter.Flush ⟨⟨[⟨[("a", "b")], 5, 0⟩]⟩⟩ flushEnvOk ≠
      .error (.msg "no series appended; aborting.")) :=
  ⟨(tsdb_flush_empty ⟨⟨[]⟩⟩ flushEnvOk).1 rfl,
   (tsdb_flush_empty ⟨⟨[⟨[("a", "b")], 5, 0⟩]⟩⟩ flushEnvOk).2
     (fun h => List.noConfusion h)⟩

theorem getOrCreate_keysAligned (env : Env) (w : MWriter) (t : Int)
    (h : keysAligned w) : keysAligned (MWriter.getOrCreate env w t).2.1 := by
  rcases getOrCreate_cases env w t with
    ⟨a, hl, hg⟩ | ⟨e, hl, he, hg⟩ | ⟨beh, hl, he, hg⟩ <;>
    rw [hg] <;>
    simp only [keysAligned, List.map_append] at h ⊢ <;>
    simp [h]

theorem mwStep_keysAligned (env : Env) (w : MWriter) (op : MWOp)
    (h : keysAligned w) : keysAligned (mwStep env w op) := by
  cases op with
  | append t v =>
    have hk := getOrCreate_keysAligned env w t h
    rcases hg : MWriter.getOrCreate env w t with ⟨a, w', evs⟩
    rw [hg] at hk
    show keysAligned (MWriter.Append env w t v).2.1
    simp only [MWriter.Append, hg]
    exact hk
  | appendEx ts =>
    have hk := getOrCreate_keysAligned env w ts h
    rcases hg : MWriter.getOrCreate env w ts with ⟨a, w', evs⟩
    rw [hg] at hk
    show keysAligned (MWriter.AppendExemplar env w ts).2.1
    simp only [MWriter.AppendExemplar, hg]
    exact hk
  | commit => exact h
  | rollback => exact h
  | flush => exact h
  | close => exact h

theorem mwRun_keysAligned (env : Env) (ops : List MWOp) :
    ∀ w, keysAligned w → keysAligned (mwRun env ops w) := by
  induction ops with
  | nil => exact fun w h => h
  | cons op rest ih =>
    exact fun w h => ih (mwStep env w op) (mwStep_keysAligned env w op h)

/-- C9: in every reachable coordinator state — any sequence of append,
appendExemplar, commit, rollback, flush and close operations applied to a
fresh coordinator, under any environment — the key sequences of the builder
map and the active-appender map are identical, because the two entries are
registered together on first touch of a range and never removed. -/
theorem maps_keys_aligned (env : Env) (ops : List MWOp) (sz : Int) :
    keysAligned (mwRun env ops (NewMultiWriter sz)) :=
  mwRun_keysAligned env ops (NewMultiWriter sz) rfl

/-- C10: when builder creation fails during routing, the append path returns
the synthesized error handle but the coordinator's maps are unchanged — the
handle is stored nowhere, so commit, rollback, flush and close all behave
exactly as in the prior state — and a later append in the same bucket finds
the key still absent and retries builder creation from scratch (it makes the
next `NewTSDBWriter` call, creation attempt `attempts + 1`). -/
theorem createFail_leaves_state (env : Env) (w : MWriter) (t : Int)
    (v v' : Val) (e : Err)
    (hl : lookupR w.activeAppenders (bucketOf t w.sizeMillis) = none)
    (he : env.newWriter w.attempts = .error e) :
    (MWriter.getOrCreate env w t).1 = .errA (.wrap "new tsdb writer" e) ∧
    (MWriter.Append env w t v).2.1.blocks = w.blocks ∧
    (MWriter.Append env w t v).2.1.activeAppenders = w.activeAppenders ∧
    MWriter.Commit (MWriter.Append env w t v).2.1 = MWriter.Commit w ∧
    MWriter.Rollback (MWriter.Append env w t v).2.1 = MWriter.Rollback w ∧
    MWriter.Flush (MWriter.Append env w t v).2.1 = MWriter.Flush w ∧
    MWriter.Close (MWriter.Append env w t v).2.1 = MWriter.Close w ∧
    (∃ ok, (MWriter.Append env ((MWriter.Append env w t v).2.1) t v').2.2 =
       [.create (w.attempts + 1) ok]) := by
  have hgc : MWriter.getOrCreate env w t =
      (.errA (.wrap "new tsdb writer" e),
       { w with attempts := w.attempts + 1 }, [.create w.attempts false]) := by
    simp [MWriter.getOrCreate, hl, he]
  have hst : (MWriter.Append env w t v).2.1 =
      { w with attempts := w.attempts + 1, clock := w.clock + 1 } := by
    simp [MWriter.Append, hgc]
  refine ⟨by simp [hgc], by simp [hst], by simp [hst], ?_, ?_, ?_, ?_, ?_⟩
  · simp [MWriter.Commit, hst]
  · simp [MWriter.Rollback, hst]
  · simp [MWriter.Flush, hst]
  · simp [MWriter.Close, hst]
  · rcases he2 : env.newWriter (w.attempts + 1) with e2 | beh2
    · refine ⟨false, ?_⟩
      rw [hst]
      simp [MWriter.Append, MWriter.getOrCreate, hl, he2]
    · refine ⟨true, ?_⟩
      rw [hst]
      simp [MWriter.Append, MWriter.getOrCreate, hl, he2]

/-- Witness for `createFail_leaves_state` on a fresh coordinator with an
always-failing creation environment. -/
theorem createFail_leaves_state_witness :
    lookupR (NewMultiWriter 10).activeAppenders
        (bucketOf 5 (NewMultiWriter 10).sizeMillis) = none ∧
    envCreateFail.newWriter (NewMultiWriter 10).attempts =
      .error (.msg "boom") ∧
    ((MWriter.getOrCreate envCreateFail (NewMultiWriter 10) 5).1 =
       .errA (.wrap "new tsdb writer" (.msg "boom")) ∧
     (MWriter.Append envCreateFail (NewMultiWriter 10) 5 0).2.1.blocks =
       (NewMultiWriter 10).blocks ∧
     (MWriter.Append envCreateFail (NewMultiWriter 10) 5 0).2.1.activeAppenders =
       (NewMultiWriter 10).activeAppenders ∧
     MWriter.Commit (MWriter.Append envCreateFail (NewMultiWriter 10) 5 0).2.1 =
       MWriter.Commit (NewMultiWriter 10) ∧
     MWriter.Rollback (MWriter.Append envCreateFail (NewMultiWriter 10) 5 0).2.1 =
       MWriter.Rollback (NewMultiWriter 10) ∧
     MWriter.Flush (MWriter.Append envCreateFail (NewMultiWriter 10) 5 0).2.1 =
       MWriter.Flush (NewMultiWriter 10) ∧
     MWriter.Close (MWriter.Append envCreateFail (NewMultiWriter 10) 5 0).2.1 =
       MWriter.Close (NewMultiWriter 10) ∧
     (∃ ok, (MWriter.Append envCreateFail
         ((MWriter.Append envCreateFail (NewMultiWriter 10) 5 0).2.1) 5 1).2.2 =
       [.create ((NewMultiWriter 10).attempts + 1) ok])) :=
  ⟨rfl, rfl,
   createFail_leaves_state envCreateFail (NewMultiWriter 10) 5 0 1
     (.msg "boom") rfl rfl⟩

theorem createdIds_append (a b : List Ev) :
    createdIds (a ++ b) = createdIds a ++ createdIds b :=
  List.filterMap_append _ _ _

theorem closedIds_append (a b : List Ev) :
    closedIds (a ++ b) = closedIds a ++ closedIds b :=
  List.filterMap_append _ _ _

theorem countCloseW_append (a b : List Ev) :
    countCloseW (a ++ b) = countCloseW a + countCloseW b := by
  simp [countCloseW, List.filter_append]

theorem countCloseW_eq_zero {l : List Ev}
    (h : ∀ ev ∈ l, isCloseW ev = false) : countCloseW l = 0 := by
  have : l.filter isCloseW = [] := by
    rw [List.filter_eq_nil_iff]
    intro a ha
    simp [h a ha]
  simp [countCloseW, this]

theorem closeLoop_spec (l : List (Range × WriterH)) :
    closeLoop l = (l.filterMap (fun p => p.2.beh.closeRes),
                   l.map (fun p => Ev.closeB p.2.id)) := by
  induction l with
  | nil => rfl
  | cons p rest ih =>
    rcases p with ⟨r, b⟩
    cases h : b.beh.closeRes <;>
      simp [closeLoop, ih, List.filterMap_cons, h]

theorem flushLoop_evs_flushB (l : List (Range × WriterH)) :
    ∀ ev ∈ (flushLoop l).2, ∃ i, ev = Ev.flushB i := by
  induction l with
  | nil => simp [flushLoop]
  | cons p rest ih =>
    rcases p with ⟨r, b⟩
    rcases hb : b.beh.flushRes with e | ids
    · simp only [flushLoop, hb]
      rintro ev hev
      simp only [List.mem_singleton] at hev
      subst hev
      exact ⟨b.id, rfl⟩
    · rcases hf : flushLoop rest with ⟨res, evs⟩
      rw [hf] at ih
      rcases res with e | ids'
      · simp only [flushLoop, hb, hf]
        rintro ev hev
        rcases List.mem_cons.mp hev with rfl | hm
        · exact ⟨b.id, rfl⟩
        · exact ih ev hm
      · simp only [flushLoop, hb, hf]
        rintro ev hev
        rcases List.mem_cons.mp hev with rfl | hm
        · exact ⟨b.id, rfl⟩
        · exact ih ev hm

theorem getOrCreate_blocks_spec (env : Env) (w : MWriter) (t : Int) :
    blockIds (MWriter.getOrCreate env w t).2.1 =
      blockIds w ++ createdIds (MWriter.getOrCreate env w t).2.2 ∧
    (∀ ev ∈ (MWriter.getOrCreate env w t).2.2, ∃ k ok, ev = Ev.create k ok) ∧
    (IdsOK w → IdsOK (MWriter.getOrCreate env w t).2.1) := by
  rcases getOrCreate_cases env w t with
    ⟨a, hl, hg⟩ | ⟨e, hl, he, hg⟩ | ⟨beh, hl, he, hg⟩ <;> rw [hg]
  · exact ⟨by simp [createdIds], by simp, fun h => h⟩
  · refine ⟨by simp [blockIds, createdIds], ?_, ?_⟩
    · rintro ev hev
      simp only [List.mem_singleton] at hev
      subst hev
      exact ⟨w.attempts, false, rfl⟩
    · rintro ⟨hn, hb⟩
      exact ⟨hn, fun i hi => Nat.lt_succ_of_lt (hb i hi)⟩
  · refine ⟨by simp [blockIds, createdIds], ?_, ?_⟩
    · rintro ev hev
      simp only [List.mem_singleton] at hev
      subst hev
      exact ⟨w.attempts, true, rfl⟩
    · rintro ⟨hn, hb⟩
      simp only [blockIds] at hn hb
      simp only [IdsOK, blockIds, List.map_append, List.map_cons, List.map_nil]
      constructor
      · rw [List.nodup_append]
        refine ⟨hn, List.nodup_singleton _, ?_⟩
        intro x hx hmem
        simp only [List.mem_singleton] at hmem
        subst hmem
        exact absurd (hb _ hx) (lt_irrefl _)
      · intro i hi
        rcases List.mem_append.mp hi with hi | hi
        · exact Nat.lt_succ_of_lt (hb i hi)
        · simp only [List.mem_singleton] at hi
          subst hi
          exact Nat.lt_succ_self _

theorem append_blocks_spec (env : Env) (w : MWriter) (t : Int) (v : Val) :
    blockIds (MWriter.Append env w t v).2.1 =
      blockIds w ++ createdIds (MWriter.Append env w t v).2.2 ∧
    (∀ ev ∈ (MWriter.Append env w t v).2.2, ∃ k ok, ev = Ev.create k ok) ∧
    (IdsOK w → IdsOK (MWriter.Append env w t v).2.1) := by
  have h := getOrCreate_blocks_spec env w t
  rcases hg : MWriter.getOrCreate env w t with ⟨a, w', evs⟩
  rw [hg] at h
  simp only [MWriter.Append, hg]
  exact h

theorem importLoop_blocks_spec (env : Env) :
    ∀ (input : List PItem) (w : MWriter),
      blockIds (importLoop env input w).2.1 =
        blockIds w ++ createdIds (importLoop env input w).2.2 ∧
      (∀ ev ∈ (importLoop env input w).2.2, ∃ k ok, ev = Ev.create k ok) ∧
      (IdsOK w → IdsOK (importLoop env input w).2.1) := by
  intro input
  induction input with
  | nil => exact fun w => ⟨by simp [importLoop, createdIds], by simp [importLoop], fun h => h⟩
  | cons item rest ih =>
    intro w
    cases item with
    | failed e =>
      exact ⟨by simp [importLoop, createdIds], by simp [importLoop], fun h => h⟩
    | entry ent =>
      cases ent with
      | other =>
        simpa only [importLoop] using ih w
      | series l ts v =>
        cases ts with
        | none =>
          exact ⟨by simp [importLoop, createdIds], by simp [importLoop], fun h => h⟩
        | some t =>
          have hA := append_blocks_spec env w t v
          rcases ha : MWriter.Append env w t v with ⟨res, w', evs⟩
          rw [ha] at hA
          rcases res with _ | e
          · have hR := ih w'
            rcases hl : importLoop env rest w' with ⟨r2, w2, evs2⟩
            rw [hl] at hR
            simp only [importLoop, ha, hl]
            refine ⟨?_, ?_, ?_⟩
            · rw [createdIds_append, ← List.append_assoc, ← hA.1, hR.1]
            · intro ev hev
              rcases List.mem_append.mp hev with hm | hm
              · exact hA.2.1 ev hm
              · exact hR.2.1 ev hm
            · exact fun h => hR.2.2 (hA.2.2 h)
          · simp only [importLoop, ha]
            exact hA

theorem importLoop_append_ok (env : Env) (ys : List PItem) :
    ∀ (xs : List PItem) (w w1 : MWriter) (evs1 : List Ev),
      importLoop env xs w = (none, w1, evs1) →
      importLoop env (xs ++ ys) w =
        ((importLoop env ys w1).1, (importLoop env ys w1).2.1,
         evs1 ++ (importLoop env ys w1).2.2) := by
  intro xs
  induction xs with
  | nil =>
    intro w w1 evs1 h
    simp only [importLoop] at h
    injection h with h1 h2
    injection h2 with h2 h3
    subst h2
    subst h3
    simp only [List.nil_append]
  | cons item rest ih =>
    intro w w1 evs1 h
    cases item with
    | failed e =>
      exact absurd h (by simp [importLoop])
    | entry ent =>
      cases ent with
      | other =>
        have hres := ih w w1 evs1 (by simpa [importLoop] using h)
        simpa [importLoop] using hres
      | series l ts v =>
        cases ts with
        | none => exact absurd h (by simp [importLoop])
        | some t =>
          rcases ha : MWriter.Append env w t v with ⟨res, w', evs⟩
          rcases res with _ | e
          · rcases hr : importLoop env rest w' with ⟨r2, w2, evs2⟩
            simp only [importLoop, ha, hr] at h
            injection h with h1 h2
            injection h2 with h2 h3
            subst h1
            subst h3
            subst h2
            have hrest : importLoop env rest w' = (none, w2, evs2) := hr
            simp only [List.cons_append, importLoop, ha, List.append_eq]
            rw [ih w' w2 evs2 hrest]
            simp [List.append_assoc]
          · simp only [importLoop, ha] at h
            exact absurd h (by simp)

/-- C7: if the import's read loop cleanly processes a prefix of the input
and then meets a series entry carrying no timestamp, the whole import aborts
at that entry: the returned error aggregate starts with the
missing-timestamp error for exactly that label set, no block identifiers are
returned, no timestamp is synthesized (the aborting entry contributes no
events at all), and neither commit nor flush is ever reached. -/
theorem import_missing_timestamp (env : Env) (pre rest : List PItem)
    (l : Labels) (v : Val) (w0 w1 : MWriter) (evs1 : List Ev)
    (hpre : importLoop env pre w0 = (none, w1, evs1)) :
    (Import env (pre ++ .entry (.series l none v) :: rest) w0).ids = [] ∧
    (∃ tail, (Import env (pre ++ .entry (.series l none v) :: rest) w0).err =
       some (.multi (missingTs l :: tail))) ∧
    Ev.commitW ∉ (Import env (pre ++ .entry (.series l none v) :: rest) w0).trace ∧
    Ev.flushW ∉ (Import env (pre ++ .entry (.series l none v) :: rest) w0).trace := by
  have hys : importLoop env (.entry (.series l none v) :: rest) w1 =
      (some (missingTs l), w1, []) := by
    simp [importLoop]
  have hloop : importLoop env (pre ++ .entry (.series l none v) :: rest) w0 =
      (some (missingTs l), w1, evs1 ++ []) := by
    rw [importLoop_append_ok env (.entry (.series l none v) :: rest) pre w0
      w1 evs1 hpre, hys]
  have hcore : importCore env (pre ++ .entry (.series l none v) :: rest) w0 =
      (([], some (missingTs l)), w1, evs1 ++ []) := by
    simp [importCore, hloop]
  rcases hclp : MWriter.Close w1 with ⟨clErr, clEvs⟩
  have hImp : Import env (pre ++ .entry (.series l none v) :: rest) w0 =
      { ids := [],
        err := multiResult ((some (missingTs l)).toList ++ clErr.toList),
        trace := (evs1 ++ []) ++ Ev.closeW :: clEvs,
        final := w1 } := by
    simp [Import, hcore, hclp]
  have hevs1 : ∀ ev ∈ evs1, ∃ k ok, ev = Ev.create k ok := by
    have hs := (importLoop_blocks_spec env pre w0).2.1
    rw [hpre] at hs
    exact hs
  have hclEvs : ∀ ev ∈ clEvs, ∃ i, ev = Ev.closeB i := by
    have hs := closeLoop_spec w1.blocks
    have : clEvs = w1.blocks.map (fun p => Ev.closeB p.2.id) := by
      have : MWriter.Close w1 =
          (multiResult (w1.blocks.filterMap (fun p => p.2.beh.closeRes)),
           w1.blocks.map (fun p => Ev.closeB p.2.id)) := by
        simp [MWriter.Close, hs]
      rw [hclp] at this
      exact congrArg Prod.snd this
    subst this
    intro ev hev
    rcases List.mem_map.mp hev with ⟨p, hp, rfl⟩
    exact ⟨p.2.id, rfl⟩
  rw [hImp]
  refine ⟨rfl, ⟨clErr.toList, by simp [multiResult]⟩, ?_, ?_⟩
  · intro hmem
    simp only [List.mem_append, List.mem_cons] at hmem
    rcases hmem with (hmem | hmem) | hmem | hmem
    · obtain ⟨k, ok, hk⟩ := hevs1 _ hmem
      cases hk
    · cases hmem
    · cases hmem
    · obtain ⟨i, hi⟩ := hclEvs _ hmem
      cases hi
  · intro hmem
    simp only [List.mem_append, List.mem_cons] at hmem
    rcases hmem with (hmem | hmem) | hmem | hmem
    · obtain ⟨k, ok, hk⟩ := hevs1 _ hmem
      cases hk
    · cases hmem
    · cases hmem
    · obtain ⟨i, hi⟩ := hclEvs _ hmem
      cases hi

/-- Witness for `import_missing_timestamp`: a one-entry input whose series
entry has no timestamp. -/
theorem import_missing_timestamp_witness :
    (Import envOk ([] ++ .entry (.series [("a", "b")] none 0) :: []) (NewMultiWriter 10)).ids = [] ∧
    (∃ tail, (Import envOk ([] ++ .entry (.series [("a", "b")] none 0) :: []) (NewMultiWriter 10)).err =
       some (.multi (missingTs [("a", "b")] :: tail))) ∧
    Ev.commitW ∉ (Import envOk ([] ++ .entry (.series [("a", "b")] none 0) :: []) (NewMultiWriter 10)).trace ∧
    Ev.flushW ∉ (Import envOk ([] ++ .entry (.series [("a", "b")] none 0) :: []) (NewMultiWriter 10)).trace :=
  import_missing_timestamp envOk [] [] [("a", "b")] 0 (NewMultiWriter 10)
    (NewMultiWriter 10) [] rfl

theorem multiResult_ne_none {l : List Err} (h : l ≠ []) :
    multiResult l ≠ none := by
  rw [Ne, multiResult_eq_none_iff]
  exact h

theorem closedIds_closeB_map (l : List (Range × WriterH)) :
    closedIds (l.map (fun p => Ev.closeB p.2.id)) = l.map (fun p => p.2.id) := by
  induction l with
  | nil => rfl
  | cons p rest ih =>
    simp only [List.map_cons, closedIds, List.filterMap_cons] at ih ⊢
    rw [ih]

theorem createdIds_eq_nil {l : List Ev}
    (h : ∀ ev ∈ l, (∃ r, ev = Ev.commitH r) ∨ (∃ i, ev = Ev.flushB i) ∨
         (∃ i, ev = Ev.closeB i) ∨ ev = Ev.commitW ∨ ev = Ev.flushW ∨
         ev = Ev.closeW) :
    createdIds l = [] :=
  List.filterMap_eq_nil_iff.mpr (fun ev hev => by
    rcases h ev hev with ⟨r, rfl⟩ | ⟨i, rfl⟩ | ⟨i, rfl⟩ | rfl | rfl | rfl <;> rfl)

theorem closedIds_eq_nil {l : List Ev}
    (h : ∀ ev ∈ l, (∃ k ok, ev = Ev.create k ok) ∨ (∃ r, ev = Ev.commitH r) ∨
         (∃ i, ev = Ev.flushB i) ∨ ev = Ev.commitW ∨ ev = Ev.flushW) :
    closedIds l = [] :=
  List.filterMap_eq_nil_iff.mpr (fun ev hev => by
    rcases h ev hev with ⟨k, ok, rfl⟩ | ⟨r, rfl⟩ | ⟨i, rfl⟩ | rfl | rfl <;> rfl)

theorem noCloseW_of_body {l : List Ev}
    (h : ∀ ev ∈ l, (∃ k ok, ev = Ev.create k ok) ∨ (∃ r, ev = Ev.commitH r) ∨
         (∃ i, ev = Ev.flushB i) ∨ ev = Ev.commitW ∨ ev = Ev.flushW) :
    ∀ ev ∈ l, isCloseW ev = false := fun ev hev => by
  rcases h ev hev with ⟨k, ok, rfl⟩ | ⟨r, rfl⟩ | ⟨i, rfl⟩ | rfl | rfl <;> rfl

theorem import_finish_spec (env : Env) (input : List PItem) (sz : Int)
    (w : MWriter) (evsC : List Ev) (ids0 : List ULID) (e? : Option Err)
    (hc : importCore env input (NewMultiWriter sz) = ((ids0, e?), w, evsC))
    (hfalse : ∀ ev ∈ evsC, isCloseW ev = false)
    (hclosed : closedIds evsC = [])
    (hcreated : createdIds evsC = blockIds w)
    (hIds : IdsOK w) :
    countCloseW (Import env input (NewMultiWriter sz)).trace = 1 ∧
    closedIds (Import env input (NewMultiWriter sz)).trace =
      blockIds (Import env input (NewMultiWriter sz)).final ∧
    createdIds (Import env input (NewMultiWriter sz)).trace =
      blockIds (Import env input (NewMultiWriter sz)).final ∧
    (blockIds (Import env input (NewMultiWriter sz)).final).Nodup ∧
    (∀ p ∈ (Import env input (NewMultiWriter sz)).final.blocks, ∀ ce,
       p.2.beh.closeRes = some ce →
       (Import env input (NewMultiWriter sz)).err ≠ none ∧
       Err.multi (closeErrsOf (Import env input (NewMultiWriter sz)).final) ∈
         errComponents (Import env input (NewMultiWriter sz)).err ∧
       ce ∈ closeErrsOf (Import env input (NewMultiWriter sz)).final) := by
  have hcs := closeLoop_spec w.blocks
  have hclose : MWriter.Close w =
      (multiResult (closeErrsOf w),
       w.blocks.map (fun p => Ev.closeB p.2.id)) := by
    simp [MWriter.Close, hcs, closeErrsOf]
  have hImp : Import env input (NewMultiWriter sz) =
      { ids := ids0,
        err := multiResult (e?.toList ++ (multiResult (closeErrsOf w)).toList),
        trace := evsC ++ Ev.closeW :: w.blocks.map (fun p => Ev.closeB p.2.id),
        final := w } := by
    simp [Import, hc, hclose]
  rw [hImp]
  refine ⟨?_, ?_, ?_, hIds.1, ?_⟩
  · show countCloseW (evsC ++ Ev.closeW :: _) = 1
    rw [countCloseW_append, countCloseW_eq_zero hfalse]
    have hrest : countCloseW (w.blocks.map (fun p => Ev.closeB p.2.id)) = 0 :=
      countCloseW_eq_zero (fun ev hev => by
        rcases List.mem_map.mp hev with ⟨p, hp, rfl⟩
        rfl)
    have : countCloseW (Ev.closeW :: w.blocks.map (fun p => Ev.closeB p.2.id)) =
        1 + countCloseW (w.blocks.map (fun p => Ev.closeB p.2.id)) := by
      simp [countCloseW, List.filter_cons, isCloseW]
      omega
    omega
  · show closedIds (evsC ++ Ev.closeW :: _) = blockIds w
    rw [closedIds_append, hclosed]
    have : closedIds (Ev.closeW :: w.blocks.map (fun p => Ev.closeB p.2.id)) =
        closedIds (w.blocks.map (fun p => Ev.closeB p.2.id)) := by
      simp [closedIds, List.filterMap_cons]
    rw [List.nil_append, this, closedIds_closeB_map]
    rfl
  · show createdIds (evsC ++ Ev.closeW :: _) = blockIds w
    rw [createdIds_append, hcreated]
    have : createdIds (Ev.closeW :: w.blocks.map (fun p => Ev.closeB p.2.id)) =
        [] := by
      apply createdIds_eq_nil
      intro ev hev
      rcases List.mem_cons.mp hev with rfl | hm
      · simp
      · rcases List.mem_map.mp hm with ⟨p, hp, rfl⟩
        exact .inr (.inr (.inl ⟨p.2.id, rfl⟩))
    rw [this, List.append_nil]
  · intro p hp ce hce
    have hmem : ce ∈ closeErrsOf w :=
      List.mem_filterMap.mpr ⟨p, hp, hce⟩
    have hne : closeErrsOf w ≠ [] := by
      intro hnil
      rw [hnil] at hmem
      cases hmem
    have hm : multiResult (closeErrsOf w) = some (.multi (closeErrsOf w)) := by
      rw [multiResult, if_neg (by simpa [List.isEmpty_iff] using hne)]
    refine ⟨?_, ?_, hmem⟩
    · show multiResult (e?.toList ++ (multiResult (closeErrsOf w)).toList) ≠ none
      rw [hm]
      apply multiResult_ne_none
      simp
    · show Err.multi (closeErrsOf w) ∈
        errComponents (multiResult (e?.toList ++ (multiResult (closeErrsOf w)).toList))
      rw [hm]
      have hall : multiResult (e?.toList ++ [Err.multi (closeErrsOf w)]) =
          some (.multi (e?.toList ++ [Err.multi (closeErrsOf w)])) := by
        rw [multiResult, if_neg (by simp)]
      simp only [Option.toList_some, hall, errComponents]
      simp

/-- C6: on every exit path of the import pipeline run on a fresh coordinator
— normal completion, parse error, missing-timestamp error, append error,
commit error or flush error — the target writer is closed exactly once
(`closeW` appears once in the trace); the builders closed are exactly the
builders created during the run, each exactly once; and any close-time
builder failure is combined into the returned error (inside the aggregated
close error, itself a component of the returned aggregate) rather than
discarded. -/
theorem import_close_always (env : Env) (input : List PItem) (sz : Int) :
    countCloseW (Import env input (NewMultiWriter sz)).trace = 1 ∧
    closedIds (Import env input (NewMultiWriter sz)).trace =
      blockIds (Import env input (NewMultiWriter sz)).final ∧
    createdIds (Import env input (NewMultiWriter sz)).trace =
      blockIds (Import env input (NewMultiWriter sz)).final ∧
    (blockIds (Import env input (NewMultiWriter sz)).final).Nodup ∧
    (∀ p ∈ (Import env input (NewMultiWriter sz)).final.blocks, ∀ ce,
       p.2.beh.closeRes = some ce →
       (Import env input (NewMultiWriter sz)).err ≠ none ∧
       Err.multi (closeErrsOf (Import env input (NewMultiWriter sz)).final) ∈
         errComponents (Import env input (NewMultiWriter sz)).err ∧
       ce ∈ closeErrsOf (Import env input (NewMultiWriter sz)).final) := by
  have hloop := importLoop_blocks_spec env input (NewMultiWriter sz)
  have hIds0 : IdsOK (NewMultiWriter sz) :=
    ⟨List.nodup_nil, by intro i hi; cases hi⟩
  have hnil : blockIds (NewMultiWriter sz) = [] := rfl
  rcases importCore_cases env input (NewMultiWriter sz) with
    ⟨e, w, evs, hl, hc⟩ | ⟨w, evs, ce0, cevs, hl, hcm, hc⟩ |
    ⟨w, evs, cevs, fe, fevs, hl, hcm, hf, hc⟩ |
    ⟨w, evs, cevs, ids, fevs, hl, hcm, hf, hc⟩ <;>
    rw [hl] at hloop
  case inl =>
    have h1 : createdIds evs = blockIds w := by
      have := hloop.1
      rw [hnil, List.nil_append] at this
      exact this.symm
    have hevs := hloop.2.1
    have hIds : IdsOK w := hloop.2.2 hIds0
    exact import_finish_spec env input sz w evs [] (some e) hc
      (noCloseW_of_body (fun ev hev => .inl (hevs ev hev)))
      (closedIds_eq_nil (fun ev hev => .inl (hevs ev hev)))
      h1 hIds
  case inr.inl =>
    have h1 : createdIds evs = blockIds w := by
      have := hloop.1
      rw [hnil, List.nil_append] at this
      exact this.symm
    have hevs := hloop.2.1
    have hIds : IdsOK w := hloop.2.2 hIds0
    have hcevs : cevs = w.activeAppenders.map (fun p => Ev.commitH p.1) := by
      have h2 : MWriter.Commit w =
          (multiResult (w.activeAppenders.filterMap
             (fun p => p.2.commitResult)),
           w.activeAppenders.map (fun p => Ev.commitH p.1)) := by
        simp [MWriter.Commit, commitLoop_spec]
      rw [hcm] at h2
      exact congrArg Prod.snd h2
    have hbody : ∀ ev ∈ evs ++ Ev.commitW :: cevs,
        (∃ k ok, ev = Ev.create k ok) ∨ (∃ r, ev = Ev.commitH r) ∨
        (∃ i, ev = Ev.flushB i) ∨ ev = Ev.commitW ∨ ev = Ev.flushW := by
      intro ev hev
      rcases List.mem_append.mp hev with hm | hm
      · exact .inl (hevs ev hm)
      · rcases List.mem_cons.mp hm with rfl | hm2
        · exact .inr (.inr (.inr (.inl rfl)))
        · rw [hcevs] at hm2
          rcases List.mem_map.mp hm2 with ⟨p, hp, rfl⟩
          exact .inr (.inl ⟨p.1, rfl⟩)
    have hcr : createdIds (evs ++ Ev.commitW :: cevs) = blockIds w := by
      rw [createdIds_append, h1]
      have hz : createdIds (Ev.commitW :: cevs) = [] := by
        apply createdIds_eq_nil
        intro ev hev
        rcases List.mem_cons.mp hev with rfl | hm2
        · exact .inr (.inr (.inr (.inl rfl)))
        · rw [hcevs] at hm2
          rcases List.mem_map.mp hm2 with ⟨p, hp, rfl⟩
          exact .inl ⟨p.1, rfl⟩
      rw [hz, List.append_nil]
    exact import_finish_spec env input sz w (evs ++ Ev.commitW :: cevs) []
      (some (.wrap "commit" ce0)) hc
      (noCloseW_of_body hbody) (closedIds_eq_nil hbody) hcr hIds
  case inr.inr.inl =>
    have h1 : createdIds evs = blockIds w := by
      have := hloop.1
      rw [hnil, List.nil_append] at this
      exact this.symm
    have hevs := hloop.2.1
    have hIds : IdsOK w := hloop.2.2 hIds0
    have hcevs : cevs = w.activeAppenders.map (fun p => Ev.commitH p.1) := by
      have h2 : MWriter.Commit w =
          (multiResult (w.activeAppenders.filterMap
             (fun p => p.2.commitResult)),
           w.activeAppenders.map (fun p => Ev.commitH p.1)) := by
        simp [MWriter.Commit, commitLoop_spec]
      rw [hcm] at h2
      exact congrArg Prod.snd h2
    have hfevs : ∀ ev ∈ fevs, ∃ i, ev = Ev.flushB i := by
      intro ev hev
      apply flushLoop_evs_flushB w.blocks ev
      have h3 : (flushLoop w.blocks).2 = fevs := congrArg Prod.snd hf
      rw [h3]
      exact hev
    have hbody : ∀ ev ∈ (evs ++ Ev.commitW :: cevs) ++ Ev.flushW :: fevs,
        (∃ k ok, ev = Ev.create k ok) ∨ (∃ r, ev = Ev.commitH r) ∨
        (∃ i, ev = Ev.flushB i) ∨ ev = Ev.commitW ∨ ev = Ev.flushW := by
      intro ev hev
      rcases List.mem_append.mp hev with hm | hm
      · rcases List.mem_append.mp hm with hma | hmb
        · exact .inl (hevs ev hma)
        · rcases List.mem_cons.mp hmb with rfl | hm3
          · exact .inr (.inr (.inr (.inl rfl)))
          · rw [hcevs] at hm3
            rcases List.mem_map.mp hm3 with ⟨p, hp, rfl⟩
            exact .inr (.inl ⟨p.1, rfl⟩)
      · rcases List.mem_cons.mp hm with rfl | hm4
        · exact .inr (.inr (.inr (.inr rfl)))
        · obtain ⟨i, rfl⟩ := hfevs ev hm4
          exact .inr (.inr (.inl ⟨i, rfl⟩))
    have hcr : createdIds ((evs ++ Ev.commitW :: cevs) ++ Ev.flushW :: fevs) =
        blockIds w := by
      rw [createdIds_append, createdIds_append, h1]
      have hz1 : createdIds (Ev.commitW :: cevs) = [] := by
        apply createdIds_eq_nil
        intro ev hev
        rcases List.mem_cons.mp hev with rfl | hm2
        · exact .inr (.inr (.inr (.inl rfl)))
        · rw [hcevs] at hm2
          rcases List.mem_map.mp hm2 with ⟨p, hp, rfl⟩
          exact .inl ⟨p.1, rfl⟩
      have hz2 : createdIds (Ev.flushW :: fevs) = [] := by
        apply createdIds_eq_nil
        intro ev hev
        rcases List.mem_cons.mp hev with rfl | hm4
        · exact .inr (.inr (.inr (.inr (.inl rfl))))
        · obtain ⟨i, rfl⟩ := hfevs ev hm4
          exact .inr (.inl ⟨i, rfl⟩)
      rw [hz1, hz2, List.append_nil, List.append_nil]
    exact import_finish_spec env input sz w
      (evs ++ Ev.commitW :: cevs ++ Ev.flushW :: fevs) []
      (some (.wrap "flush" fe)) hc
      (noCloseW_of_body hbody) (closedIds_eq_nil hbody) hcr hIds
  case inr.inr.inr =>
    have h1 : createdIds evs = blockIds w := by
      have := hloop.1
      rw [hnil, List.nil_append] at this
      exact this.symm
    have hevs := hloop.2.1
    have hIds : IdsOK w := hloop.2.2 hIds0
    have hcevs : cevs = w.activeAppenders.map (fun p => Ev.commitH p.1) := by
      have h2 : MWriter.Commit w =
          (multiResult (w.activeAppenders.filterMap
             (fun p => p.2.commitResult)),
           w.activeAppenders.map (fun p => Ev.commitH p.1)) := by
        simp [MWriter.Commit, commitLoop_spec]
      rw [hcm] at h2
      exact congrArg Prod.snd h2
    have hfevs : ∀ ev ∈ fevs, ∃ i, ev = Ev.flushB i := by
      intro ev hev
      apply flushLoop_evs_flushB w.blocks ev
      have h3 : (flushLoop w.blocks).2 = fevs := congrArg Prod.snd hf
      rw [h3]
      exact hev
    have hbody : ∀ ev ∈ (evs ++ Ev.commitW :: cevs) ++ Ev.flushW :: fevs,
        (∃ k ok, ev = Ev.create k ok) ∨ (∃ r, ev = Ev.commitH r) ∨
        (∃ i, ev = Ev.flushB i) ∨ ev = Ev.commitW ∨ ev = Ev.flushW := by
      intro ev hev
      rcases List.mem_append.mp hev with hm | hm
      · rcases List.mem_append.mp hm with hma | hmb
        · exact .inl (hevs ev hma)
        · rcases List.mem_cons.mp hmb with rfl | hm3
          · exact .inr (.inr (.inr (.inl rfl)))
          · rw [hcevs] at hm3
            rcases List.mem_map.mp hm3 with ⟨p, hp, rfl⟩
            exact .inr (.inl ⟨p.1, rfl⟩)
      · rcases List.mem_cons.mp hm with rfl | hm4
        · exact .inr (.inr (.inr (.inr rfl)))
        · obtain ⟨i, rfl⟩ := hfevs ev hm4
          exact .inr (.inr (.inl ⟨i, rfl⟩))
    have hcr : createdIds ((evs ++ Ev.commitW :: cevs) ++ Ev.flushW :: fevs) =
        blockIds w := by
      rw [createdIds_append, createdIds_append, h1]
      have hz1 : createdIds (Ev.commitW :: cevs) = [] := by
        apply createdIds_eq_nil
        intro ev hev
        rcases List.mem_cons.mp hev with rfl | hm2
        · exact .inr (.inr (.inr (.inl rfl)))
        · rw [hcevs] at hm2
          rcases List.mem_map.mp hm2 with ⟨p, hp, rfl⟩
          exact .inl ⟨p.1, rfl⟩
      have hz2 : createdIds (Ev.flushW :: fevs) = [] := by
        apply createdIds_eq_nil
        intro ev hev
        rcases List.mem_cons.mp hev with rfl | hm4
        · exact .inr (.inr (.inr (.inr (.inl rfl))))
        · obtain ⟨i, rfl⟩ := hfevs ev hm4
          exact .inr (.inl ⟨i, rfl⟩)
      rw [hz1, hz2, List.append_nil, List.append_nil]
    exact import_finish_spec env input sz w
      (evs ++ Ev.commitW :: cevs ++ Ev.flushW :: fevs) ids none hc
      (noCloseW_of_body hbody) (closedIds_eq_nil hbody) hcr hIds

/-- Witness for `import_close_always` on a concrete run whose builder close
fails. -/
theorem import_close_always_witness :
    countCloseW (Import envCloseFail inputOne (NewMultiWriter 10)).trace = 1 ∧
    closedIds (Import envCloseFail inputOne (NewMultiWriter 10)).trace =
      blockIds (Import envCloseFail inputOne (NewMultiWriter 10)).final ∧
    createdIds (Import envCloseFail inputOne (NewMultiWriter 10)).trace =
      blockIds (Import envCloseFail inputOne (NewMultiWriter 10)).final ∧
    (blockIds (Import envCloseFail inputOne (NewMultiWriter 10)).final).Nodup ∧
    (∀ p ∈ (Import envCloseFail inputOne (NewMultiWriter 10)).final.blocks,
       ∀ ce, p.2.beh.closeRes = some ce →
       (Import envCloseFail inputOne (NewMultiWriter 10)).err ≠ none ∧
       Err.multi (closeErrsOf
           (Import envCloseFail inputOne (NewMultiWriter 10)).final) ∈
         errComponents (Import envCloseFail inputOne (NewMultiWriter 10)).err ∧
       ce ∈ closeErrsOf (Import envCloseFail inputOne (NewMultiWriter 10)).final) :=
  import_close_always envCloseFail inputOne 10

end ThanosKit
